import Mathlib

/-!
Verification of the prost-derive code generators (`src/prost-derive/src/lib.rs`)
against their specification.

The source is a schema-to-codec compiler: `try_message` compiles a record
shape, `try_oneof` a sum-type shape, `try_enumeration` a closed set of
integer constants.  The field-kind specific capabilities (`Field::new`,
`field.tags()`, encode/merge/... generation per field) live in `mod field`,
which the spec treats as an external collaborator; they are modelled
abstractly below, and everything that `lib.rs` itself does — tag threading,
sorting, duplicate detection, dispatch generation — is embedded directly
from the source.
-/

/-- Compilation / run outcome.  `err` models a recoverable `Err` return
(`bail!` in the source), `fatal` models a process abort (`panic!` or
`unreachable!`). -/
inductive Outcome (α : Type) where
  | ok : α → Outcome α
  | err : String → Outcome α
  | fatal : String → Outcome α
deriving DecidableEq

/-- A resolved field descriptor.  In the source this is `field::Field`;
for the compilation logic in `lib.rs` only its tag set (`field.tags()`)
is consulted, so the embedding keeps exactly that. -/
structure FieldDesc where
  tags : List Nat
deriving DecidableEq, Repr

/-- Modelled from the spec: the inputs accepted by the Field Descriptor
Resolver (`Field::new` in `mod field`, which is outside `src/`).  A declared
field is explicitly ignored, carries explicit tags, carries no explicit tag
(and so receives the position-derived fallback tag), or is malformed. -/
inductive FieldAttrs where
  | ignored : FieldAttrs
  | explicitTags : List Nat → FieldAttrs
  | implicit : FieldAttrs
  | malformed : String → FieldAttrs
deriving DecidableEq

/-- `iter().max()` on a tag list. -/
def listMax? : List Nat → Option Nat
  | [] => none
  | t :: ts => some (ts.foldl max t)

/-- `iter().min()` on a tag list. -/
def listMin? : List Nat → Option Nat
  | [] => none
  | t :: ts => some (ts.foldl min t)

/-- Modelled from the spec: `Field::new(attrs, Some(next_tag))`
(`resolve(field_attributes, position, running_next_tag)` in §4.1).  An
ignored field yields no descriptor; an unannotated field receives the
running fallback tag; malformed attributes fail. -/
def fieldNew (attrs : FieldAttrs) (inferredTag : Nat) : Except String (Option FieldDesc) :=
  match attrs with
  | .ignored => .ok none
  | .explicitTags ts => .ok (some ⟨ts⟩)
  | .implicit => .ok (some ⟨[inferredTag]⟩)
  | .malformed m => .error m

/-- `next_tag = field.tags().iter().max().map(|t| t + 1).unwrap_or(next_tag)`
(line 65 of the source). -/
def advanceTag (f : FieldDesc) (nextTag : Nat) : Nat :=
  match listMax? f.tags with
  | some t => t + 1
  | none => nextTag

/-- The field-resolution loop of `try_message` (lines 55–74): thread
`next_tag` through the declared fields, skip ignored fields, stop at the
first resolution error, annotating it with the shape and field name. -/
def resolveFieldsGo (ident : String) :
    Nat → List (String × FieldAttrs) → Except String (List (String × FieldDesc))
  | _, [] => .ok []
  | nextTag, (fid, attrs) :: rest =>
    match fieldNew attrs nextTag with
    | .ok (some f) =>
        (resolveFieldsGo ident (advanceTag f nextTag) rest).map (fun r => (fid, f) :: r)
    | .ok none => resolveFieldsGo ident nextTag rest
    | .error e => .error ("invalid message field " ++ ident ++ "." ++ fid ++ ": " ++ e)

/-- `let mut next_tag: u32 = 1;` — resolution starts with fallback tag 1. -/
def resolveFields (ident : String) (declared : List (String × FieldAttrs)) :
    Except String (List (String × FieldDesc)) :=
  resolveFieldsGo ident 1 declared

/-- The arithmetic sequence of descriptors predicted by the spec for a run
of unannotated fields beginning at counter value `n`: tags `n, n+1, n+2, …`
in declaration order. -/
def implicitExpected (n : Nat) : List String → List (String × FieldDesc)
  | [] => []
  | nm :: rest => (nm, ⟨[n]⟩) :: implicitExpected (n + 1) rest

theorem resolveFieldsGo_implicit (ident : String) (n : Nat) (fid : String)
    (rest : List (String × FieldAttrs)) :
    resolveFieldsGo ident n ((fid, FieldAttrs.implicit) :: rest) =
      (resolveFieldsGo ident (n + 1) rest).map (fun r => (fid, FieldDesc.mk [n]) :: r) := rfl

theorem resolveFieldsGo_all_implicit (ident : String) (n : Nat) (names : List String) :
    resolveFieldsGo ident n (names.map (fun nm => (nm, FieldAttrs.implicit))) =
      .ok (implicitExpected n names) := by
  induction names generalizing n with
  | nil => rfl
  | cons nm rest ih =>
      rw [List.map_cons, resolveFieldsGo_implicit, ih]
      rfl

/-- `tags.dedup()` on a `Vec` removes consecutive duplicates.  (When two
adjacent elements are equal the source keeps the first and this definition
keeps the second; for equal values the resulting list is identical.) -/
def dedupConsec : List Nat → List Nat
  | [] => []
  | [a] => [a]
  | a :: b :: rest => if a = b then dedupConsec (b :: rest) else a :: dedupConsec (b :: rest)

theorem dedupConsec_length_le : ∀ l : List Nat, (dedupConsec l).length ≤ l.length
  | [] => Nat.le_refl _
  | [_] => Nat.le_refl _
  | a :: b :: rest => by
      rw [dedupConsec]
      by_cases h : a = b
      · simp only [if_pos h]
        exact Nat.le_trans (dedupConsec_length_le (b :: rest)) (Nat.le_succ _)
      · simp only [if_neg h, List.length_cons]
        exact Nat.succ_le_succ (dedupConsec_length_le (b :: rest))

theorem dedupConsec_length_sorted :
    ∀ l : List Nat, l.Sorted (· ≤ ·) → ((dedupConsec l).length = l.length ↔ l.Nodup) := by
  intro l
  induction l with
  | nil => intro _; simp [dedupConsec]
  | cons a t ih =>
    intro hs
    match t with
    | [] => simp [dedupConsec]
    | b :: rest =>
      have hs' : (b :: rest).Sorted (· ≤ ·) := hs.of_cons
      by_cases h : a = b
      · rw [dedupConsec, if_pos h]
        constructor
        · intro hlen
          exfalso
          have hle := dedupConsec_length_le (b :: rest)
          simp only [List.length_cons] at hlen hle
          omega
        · intro hnd
          exact absurd (h ▸ List.mem_cons_self b rest) (List.nodup_cons.mp hnd).1
      · rw [dedupConsec, if_neg h]
        have hnotmem : a ∉ b :: rest := by
          intro hmem
          rcases List.mem_cons.mp hmem with hab | har
          · exact h hab
          · have hab' : a ≤ b := (List.sorted_cons.mp hs).1 b (List.mem_cons_self b rest)
            have hba : b ≤ a := (List.sorted_cons.mp hs').1 a har
            exact h (Nat.le_antisymm hab' hba)
        constructor
        · intro hlen
          refine List.nodup_cons.mpr ⟨hnotmem, (ih hs').mp ?_⟩
          simpa using hlen
        · intro hnd
          have hlen : (dedupConsec (b :: rest)).length = (b :: rest).length :=
            (ih hs').mpr (List.nodup_cons.mp hnd).2
          simpa using hlen

/-- `tags.sort()` on a `Vec<u32>`. -/
def sortNat (l : List Nat) : List Nat := List.insertionSort (· ≤ ·) l

theorem dedupConsec_sortNat_length_iff (l : List Nat) :
    (dedupConsec (sortNat l)).length = l.length ↔ l.Nodup := by
  have hperm : List.Perm (sortNat l) l := List.perm_insertionSort _ l
  have hsorted : (sortNat l).Sorted (· ≤ ·) := List.sorted_insertionSort _ l
  rw [← hperm.length_eq, dedupConsec_length_sorted _ hsorted, hperm.nodup_iff]

/-- The sort key of `fields.sort_by_key(|&(_, ref field)| field.tags().into_iter().min().unwrap())`
(line 83): a descriptor's minimum tag.  (`unwrap` requires non-empty tags;
descriptors of resolved fields always carry at least one tag.) -/
def FieldDesc.minTag (f : FieldDesc) : Nat :=
  match listMin? f.tags with
  | some t => t
  | none => 0

/-- The comparison used for tag-sorting resolved fields. -/
def tagLE (a b : String × FieldDesc) : Prop := a.2.minTag ≤ b.2.minTag

instance : DecidableRel tagLE :=
  fun a b => inferInstanceAs (Decidable (a.2.minTag ≤ b.2.minTag))

instance : IsTotal (String × FieldDesc) tagLE := ⟨fun a b => Nat.le_total a.2.minTag b.2.minTag⟩

instance : IsTrans (String × FieldDesc) tagLE := ⟨fun _ _ _ => Nat.le_trans⟩

/-- `fields.sort_by_key(...)` — `sort_by_key` is a stable sort; it is
modelled by insertion sort, which is also stable. -/
def sortFields (l : List (String × FieldDesc)) : List (String × FieldDesc) :=
  List.insertionSort tagLE l

/-- The output of compiling a record shape: the resolved declaration-order
field list, the tag-sorted list, and — for each generated item — the field
order (and dispatch tags) it is generated from, mirroring which of the two
lists each generator iterates in lines 97–176 of the source. -/
structure GeneratedMessage where
  resolved : List (String × FieldDesc)
  sortedFields : List (String × FieldDesc)
  encodeOrder : List String
  mergeDispatch : List (String × List Nat)
  encodedLenOrder : List String
  clearOrder : List String
  defaultOrder : List String
  debugOrder : List String
deriving DecidableEq, Repr

/-- `try_message` (lines 22–231): resolve the fields threading `next_tag`,
keep the declaration-order list (`unsorted_fields`), tag-sort `fields`,
fail on duplicate tags, then generate encode / merge / encoded_len / clear /
default from the sorted list and debug from the declaration-order list. -/
def tryMessage (ident : String) (declared : List (String × FieldAttrs)) :
    Outcome GeneratedMessage :=
  match resolveFields ident declared with
  | .error e => .err e
  | .ok resolved =>
    if (dedupConsec (sortNat ((sortFields resolved).flatMap (fun f => f.2.tags)))).length ≠
        ((sortFields resolved).flatMap (fun f => f.2.tags)).length then
      .err ("message " ++ ident ++ " has fields with duplicate tags")
    else
      .ok { resolved := resolved
            sortedFields := sortFields resolved
            encodeOrder := (sortFields resolved).map Prod.fst
            mergeDispatch := (sortFields resolved).map (fun f => (f.1, f.2.tags))
            encodedLenOrder := (sortFields resolved).map Prod.fst
            clearOrder := (sortFields resolved).map Prod.fst
            defaultOrder := (sortFields resolved).map Prod.fst
            debugOrder := resolved.map Prod.fst }

/-- The decode error enriched by generated merge code: a description plus a
stack of `(STRUCT_NAME, field_name)` contexts added by `error.push`. -/
structure DecodeError where
  description : String
  stack : List (String × String)
deriving DecidableEq, Repr

/-- `error.push(STRUCT_NAME, stringify!(#field_ident))`. -/
def DecodeError.push (e : DecodeError) (structName fieldName : String) : DecodeError :=
  { e with stack := (structName, fieldName) :: e.stack }

/-- The generated `Message::merge_field` body for a record shape
(lines 105–121 and 186–199): a `match tag` whose arm for each descriptor of
the tag-sorted list matches any of that descriptor's tags and invokes its
merge capability, wrapping a failure with the shape and field name, and
whose default arm calls `::prost::encoding::skip_field`.  The per-field
merge capabilities and the skip primitive are external; they are passed as
arguments, each returning the outcome of consuming the wire fragment. -/
def messageMergeField (structName : String) (sortedFields : List (String × FieldDesc))
    (caps : String → Except DecodeError Unit) (skip : Except DecodeError Unit)
    (tag : Nat) : Except DecodeError Unit :=
  match sortedFields.find? (fun f => f.2.tags.contains tag) with
  | some (fid, _) =>
    match caps fid with
    | .ok _ => .ok ()
    | .error e => .error (e.push structName fid)
  | none => skip

theorem find?_of_mem_tags_nodup :
    ∀ (fields : List (String × FieldDesc)) (fid : String) (fd : FieldDesc) (tag : Nat),
      (fields.flatMap (fun f => f.2.tags)).Nodup → (fid, fd) ∈ fields → tag ∈ fd.tags →
      fields.find? (fun f => f.2.tags.contains tag) = some (fid, fd) := by
  intro fields
  induction fields with
  | nil => intro _ _ _ _ hmem; cases hmem
  | cons hd tl ih =>
    intro fid fd tag hnd hmem ht
    have hflat : hd.2.tags ++ tl.flatMap (fun f => f.2.tags) =
        (hd :: tl).flatMap (fun f => f.2.tags) := by
      simp [List.flatMap_cons]
    rw [← hflat] at hnd
    rcases List.mem_cons.mp hmem with heq | htl
    · subst heq
      rw [List.find?_cons_of_pos _ (by simpa using ht)]
    · by_cases hhd : tag ∈ hd.2.tags
      · exfalso
        have htltag : tag ∈ tl.flatMap (fun f => f.2.tags) :=
          List.mem_flatMap.mpr ⟨(fid, fd), htl, ht⟩
        exact List.disjoint_of_nodup_append hnd hhd htltag
      · rw [List.find?_cons_of_neg _ (by simpa using hhd)]
        exact ih fid fd tag hnd.of_append_right htl ht

/-- The tag-collection loop of `try_oneof` (lines 348–360).  The closure
returns `Result<u32, Error>` under `flat_map`, and a `Result` iterates as
at most one element: the `bail!` for a multi-tag variant contributes no
element and iteration continues (the error value is discarded by the
iterator); `field.tags()[0]` on an empty tag list is an index abort. -/
def oneofCollectTags : List (String × FieldDesc) → Outcome (List Nat)
  | [] => .ok []
  | v :: vs =>
    if 1 < v.2.tags.length then oneofCollectTags vs
    else
      match v.2.tags with
      | [] => .fatal "index out of bounds"
      | t :: _ =>
        match oneofCollectTags vs with
        | .ok ts => .ok (t :: ts)
        | .err e => .err e
        | .fatal m => .fatal m

/-- The output of compiling a sum-type shape: each variant with the single
tag its dispatch arm is generated from (`field.tags()[0]`, line 373). -/
structure GeneratedOneof where
  variants : List (String × Nat)
deriving DecidableEq, Repr

/-- `try_oneof`'s validation (lines 348–365): collect the variant tags,
sort and deduplicate them, and `panic!` — not return an error — when the
count differs from the variant count, naming the shape. -/
def tryOneof (ident : String) (variants : List (String × FieldDesc)) :
    Outcome GeneratedOneof :=
  match oneofCollectTags variants with
  | .ok tags =>
    if (dedupConsec (sortNat tags)).length ≠ variants.length then
      .fatal ("invalid oneof " ++ ident ++ ": variants have duplicate tags")
    else
      .ok ⟨variants.map (fun v => (v.1, v.2.tags.headD 0))⟩
  | .err e => .err e
  | .fatal m => .fatal m

/-- Runtime state of a oneof slot: the active variant and its payload.
The payload type `π` abstracts the variants' single fields. -/
structure OneofState (π : Type) where
  variant : String
  payload : π
deriving DecidableEq, Repr

/-- The `_` arm of the generated `match field` (lines 381–385): build a
fresh default payload, merge into it, and `map` the success into storing
the newly built variant — on failure the `map` does not run and the slot
keeps its previous contents. -/
def oneofMergeFresh {π : Type} (vid : String) (defaults : String → π)
    (caps : String → π → π × Option DecodeError)
    (field : Option (OneofState π)) : Option (OneofState π) × Option DecodeError :=
  match caps vid (defaults vid) with
  | (merged, none) => (some ⟨vid, merged⟩, none)
  | (_, some e) => (field, some e)

/-- The generated `merge` of a sum-type shape (lines 372–389 and 414–426):
dispatch on the tag; the arm for a variant merges into the existing payload
in place when the slot already holds that same variant, and otherwise goes
through `oneofMergeFresh`; a tag belonging to no variant hits
`unreachable!` with the shape identifier and the tag.  The per-variant
merge capability is external: `caps vid p` yields the payload state after
the capability consumed the wire fragment, plus its error if it failed. -/
def oneofMergeField {π : Type} (ident : String) (variants : List (String × Nat))
    (defaults : String → π) (caps : String → π → π × Option DecodeError)
    (tag : Nat) (field : Option (OneofState π)) :
    Outcome (Option (OneofState π) × Option DecodeError) :=
  match variants.find? (fun v => v.2 == tag) with
  | some (vid, _) =>
    match field with
    | some st =>
      if st.variant = vid then
        match caps vid st.payload with
        | (merged, e) => .ok (some ⟨vid, merged⟩, e)
      else
        .ok (oneofMergeFresh vid defaults caps field)
    | none => .ok (oneofMergeFresh vid defaults caps field)
  | none => .fatal ("invalid " ++ ident ++ " tag: " ++ toString tag)

theorem variants_find?_of_mem_nodup :
    ∀ (variants : List (String × Nat)) (vid : String) (tag : Nat),
      (variants.map Prod.snd).Nodup → (vid, tag) ∈ variants →
      variants.find? (fun v => v.2 == tag) = some (vid, tag) := by
  intro variants
  induction variants with
  | nil => intro _ _ _ hmem; cases hmem
  | cons hd tl ih =>
    intro vid tag hnd hmem
    rw [List.map_cons, List.nodup_cons] at hnd
    rcases List.mem_cons.mp hmem with heq | htl
    · subst heq
      rw [List.find?_cons_of_pos _ (by simp)]
    · by_cases hhd : hd.2 = tag
      · exfalso
        have : tag ∈ tl.map Prod.snd := List.mem_map.mpr ⟨(vid, tag), htl, rfl⟩
        exact hnd.1 (hhd ▸ this)
      · rw [List.find?_cons_of_neg _ (by simpa using hhd)]
        exact ih vid tag hnd.2 htl

/-- The enumeration target type: the user's newtype over the raw integer. -/
structure EnumWrapper where
  raw : Int
deriving DecidableEq, Repr

/-- Generated `is_valid` (lines 258–267): `self` matches one of the
declared constants. -/
def enumIsValid (constants : List Int) (e : EnumWrapper) : Bool :=
  constants.contains e.raw

/-- Generated `Default::default` (lines 272–283): `#ty::#default` where
`default = &variants[0]`, the first declared constant. -/
def enumDefault (constants : List Int) : EnumWrapper := ⟨constants.headD 0⟩

/-- Generated `From<i32> for #ty` (lines 285–290): `#ty(value)`, a direct
unvalidated reinterpretation of the raw integer. -/
def enumFromRaw (v : Int) : EnumWrapper := ⟨v⟩

/-- Generated `From<#ty> for i32` (lines 292–297): `value.0`. -/
def enumIntoRaw (e : EnumWrapper) : Int := e.raw

/-- `try_enumeration` (lines 233–301) as far as the claims reach: the input
is the list of declared constants' values in declaration order (the source
has already rejected generic impls, trait impls and non-const members);
zero constants fail, otherwise the four operations above are generated over
this list. -/
def tryEnumeration (constants : List Int) : Outcome (List Int) :=
  if constants.isEmpty then .err "enumeration must be applied to impls with consts"
  else .ok constants

theorem filter_orderedInsert_minTag (k : Nat) (a : String × FieldDesc) :
    ∀ l : List (String × FieldDesc),
      (List.orderedInsert tagLE a l).filter (fun x => x.2.minTag == k) =
        if a.2.minTag == k then a :: l.filter (fun x => x.2.minTag == k)
        else l.filter (fun x => x.2.minTag == k) := by
  intro l
  induction l with
  | nil =>
    by_cases hpa : a.2.minTag == k <;> simp [List.orderedInsert, List.filter, hpa]
  | cons b l ih =>
    rw [List.orderedInsert]
    by_cases hr : tagLE a b
    · rw [if_pos hr]
      by_cases hpa : a.2.minTag == k <;> simp [List.filter_cons, hpa]
    · rw [if_neg hr]
      by_cases hpa : a.2.minTag == k
      · have hpb : ¬ (b.2.minTag == k) := by
          have hlt : b.2.minTag < a.2.minTag := Nat.lt_of_not_le hr
          have hak : a.2.minTag = k := by simpa using hpa
          simp only [beq_iff_eq]
          omega
        simp [List.filter_cons, hpa, hpb, ih]
      · simp [List.filter_cons, hpa, ih]

theorem filter_sortFields_minTag (k : Nat) :
    ∀ l : List (String × FieldDesc),
      (sortFields l).filter (fun x => x.2.minTag == k) =
        l.filter (fun x => x.2.minTag == k)
  | [] => rfl
  | a :: l => by
    have hrec : (sortFields l).filter (fun x => x.2.minTag == k) =
        l.filter (fun x => x.2.minTag == k) := filter_sortFields_minTag k l
    rw [sortFields, List.insertionSort, filter_orderedInsert_minTag]
    rw [show List.insertionSort tagLE l = sortFields l from rfl, hrec]
    by_cases hpa : a.2.minTag == k <;> simp [List.filter_cons, hpa]

theorem tryMessage_ok_inv (ident : String) (declared : List (String × FieldAttrs))
    (g : GeneratedMessage) (h : tryMessage ident declared = .ok g) :
    resolveFields ident declared = .ok g.resolved ∧
    (g.resolved.flatMap (fun f => f.2.tags)).Nodup ∧
    g.sortedFields = sortFields g.resolved ∧
    g.encodeOrder = g.sortedFields.map Prod.fst ∧
    g.mergeDispatch = g.sortedFields.map (fun f => (f.1, f.2.tags)) ∧
    g.encodedLenOrder = g.sortedFields.map Prod.fst ∧
    g.clearOrder = g.sortedFields.map Prod.fst ∧
    g.defaultOrder = g.sortedFields.map Prod.fst ∧
    g.debugOrder = g.resolved.map Prod.fst := by
  unfold tryMessage at h
  cases hres : resolveFields ident declared with
  | error e => rw [hres] at h; exact Outcome.noConfusion h
  | ok resolved =>
    rw [hres] at h
    split at h
    · next heq => exact Except.noConfusion heq
    · next r heq =>
      injection heq with he
      subst he
      split at h
      · exact Outcome.noConfusion h
      · next hdup =>
        have hnd : ((sortFields resolved).flatMap (fun f => f.2.tags)).Nodup := by
          have := Decidable.of_not_not hdup
          exact (dedupConsec_sortNat_length_iff _).mp this
        have hperm : List.Perm (sortFields resolved) resolved := List.perm_insertionSort _ _
        have hndres : (resolved.flatMap (fun f => f.2.tags)).Nodup :=
          ((hperm.flatMap_right _).nodup_iff).mp hnd
        injection h with hg
        subst hg
        exact ⟨rfl, hndres, rfl, rfl, rfl, rfl, rfl, rfl, rfl⟩

theorem tryMessage_dup_err (ident : String) (declared : List (String × FieldAttrs))
    (resolved : List (String × FieldDesc))
    (hres : resolveFields ident declared = .ok resolved)
    (hdup : ¬ (resolved.flatMap (fun f => f.2.tags)).Nodup) :
    tryMessage ident declared =
      .err ("message " ++ ident ++ " has fields with duplicate tags") := by
  unfold tryMessage
  rw [hres]
  have hperm : List.Perm (sortFields resolved) resolved := List.perm_insertionSort _ _
  have hdup' : ¬ ((sortFields resolved).flatMap (fun f => f.2.tags)).Nodup := by
    intro hnd
    exact hdup (((hperm.flatMap_right _).nodup_iff).mp hnd)
  split
  · next heq => exact Except.noConfusion heq
  · next r heq =>
    injection heq with he
    subst he
    split
    · rfl
    · next hlen =>
      exact absurd ((dedupConsec_sortNat_length_iff _).mp (Decidable.of_not_not hlen)) hdup'

theorem oneofCollectTags_single (variants : List (String × FieldDesc))
    (hsingle : ∀ v ∈ variants, ∃ t, v.2.tags = [t]) :
    oneofCollectTags variants = .ok (variants.map (fun v => v.2.tags.headD 0)) := by
  induction variants with
  | nil => rfl
  | cons v vs ih =>
    obtain ⟨t, ht⟩ := hsingle v (List.mem_cons_self v vs)
    have hrest := ih (fun w hw => hsingle w (List.mem_cons_of_mem v hw))
    rw [oneofCollectTags, ht]
    simp only [List.length_cons, List.length_nil]
    rw [if_neg (by omega), hrest]
    simp [ht]

theorem oneofMergeFresh_ok {π : Type} (vid : String) (defaults : String → π)
    (caps : String → π → π × Option DecodeError) (field : Option (OneofState π))
    (hsucc : (caps vid (defaults vid)).2 = none) :
    oneofMergeFresh vid defaults caps field =
      (some ⟨vid, (caps vid (defaults vid)).1⟩, none) := by
  rcases hce : caps vid (defaults vid) with ⟨m, e⟩
  have he : e = none := by rw [hce] at hsucc; exact hsucc
  subst he
  unfold oneofMergeFresh
  rw [hce]

theorem oneofMergeFresh_err {π : Type} (vid : String) (defaults : String → π)
    (caps : String → π → π × Option DecodeError) (field : Option (OneofState π))
    (e : DecodeError) (hfail : (caps vid (defaults vid)).2 = some e) :
    oneofMergeFresh vid defaults caps field = (field, some e) := by
  rcases hce : caps vid (defaults vid) with ⟨m, e'⟩
  have he : e' = some e := by rw [hce] at hfail; exact hfail
  subst he
  unfold oneofMergeFresh
  rw [hce]

/-- C1: implicit tags are assigned by threading a counter that starts at 1
(`resolveFields` enters the loop with counter 1); a field without an
explicit tag receives the current counter value; a successful resolution
advances the counter to `max(resolved tags) + 1` (so an intermediate
multi-tag field makes the next implicit tag skip past its maximum); an
ignored field leaves the counter unchanged and consumes no tag; hence
unannotated fields in declaration order receive strictly increasing tags
1, 2, 3, …. -/
theorem C1_implicit_tag_threading :
    (∀ ident declared, resolveFields ident declared = resolveFieldsGo ident 1 declared) ∧
    (∀ ident n fid rest,
      resolveFieldsGo ident n ((fid, FieldAttrs.implicit) :: rest) =
        (resolveFieldsGo ident (n + 1) rest).map (fun r => (fid, FieldDesc.mk [n]) :: r)) ∧
    (∀ ident n fid t ts rest,
      resolveFieldsGo ident n ((fid, FieldAttrs.explicitTags (t :: ts)) :: rest) =
        (resolveFieldsGo ident (ts.foldl max t + 1) rest).map
          (fun r => (fid, FieldDesc.mk (t :: ts)) :: r)) ∧
    (∀ ident n fid rest,
      resolveFieldsGo ident n ((fid, FieldAttrs.ignored) :: rest) =
        resolveFieldsGo ident n rest) ∧
    (∀ ident names,
      resolveFields ident (names.map (fun nm => (nm, FieldAttrs.implicit))) =
        .ok (implicitExpected 1 names)) := by
  refine ⟨fun _ _ => rfl, fun _ _ _ _ => rfl, fun _ _ _ _ _ _ => rfl, fun _ _ _ _ => rfl, ?_⟩
  intro ident names
  exact resolveFieldsGo_all_implicit ident 1 names

/-- C2: duplicate-tag detection has asymmetric severity — a record shape
whose flattened tag list contains a duplicate fails with a recoverable
error return naming the shape, while a sum-type shape whose variants carry
duplicate tags aborts with a panic naming the shape. -/
theorem C2_duplicate_tag_severity :
    (∀ ident declared resolved,
      resolveFields ident declared = Except.ok resolved →
      ¬ (resolved.flatMap (fun f => f.2.tags)).Nodup →
      tryMessage ident declared =
        .err ("message " ++ ident ++ " has fields with duplicate tags")) ∧
    (∀ ident variants,
      (∀ v ∈ variants, ∃ t, v.2.tags = [t]) →
      ¬ (variants.map (fun v => v.2.tags.headD 0)).Nodup →
      tryOneof ident variants =
        .fatal ("invalid oneof " ++ ident ++ ": variants have duplicate tags")) := by
  refine ⟨tryMessage_dup_err, ?_⟩
  intro ident variants hsingle hdup
  unfold tryOneof
  rw [oneofCollectTags_single variants hsingle]
  split
  · next ts heq =>
    injection heq with he
    subst he
    split
    · rfl
    · next hlen =>
      exfalso
      have heq2 : (dedupConsec (sortNat (variants.map (fun v => v.2.tags.headD 0)))).length =
          (variants.map (fun v => v.2.tags.headD 0)).length := by
        rw [List.length_map]
        exact Decidable.of_not_not hlen
      exact hdup ((dedupConsec_sortNat_length_iff _).mp heq2)
  · next heq => exact Outcome.noConfusion heq
  · next heq => exact Outcome.noConfusion heq

theorem C2_witness :
    tryMessage "Shirt"
        [("color", FieldAttrs.explicitTags [1]), ("size", FieldAttrs.explicitTags [1])] =
      .err ("message " ++ "Shirt" ++ " has fields with duplicate tags") ∧
    tryOneof "Widget" [("A", FieldDesc.mk [3]), ("B", FieldDesc.mk [3])] =
      .fatal ("invalid oneof " ++ "Widget" ++ ": variants have duplicate tags") := by
  constructor
  · exact C2_duplicate_tag_severity.1 "Shirt" _
      [("color", FieldDesc.mk [1]), ("size", FieldDesc.mk [1])] rfl (by decide)
  · refine C2_duplicate_tag_severity.2 "Widget" _ ?_ (by decide)
    intro v hv
    simp only [List.mem_cons, List.not_mem_nil, or_false] at hv
    rcases hv with rfl | rfl
    · exact ⟨3, rfl⟩
    · exact ⟨3, rfl⟩

/-- C3: the generated sum-type merge, dispatched on a variant's tag,
merges the wire fragment into the existing payload in place when the slot
already holds that same variant, and otherwise merges into a freshly
constructed default payload and on success replaces the slot's contents
with the newly constructed variant, discarding any previously active
different variant. -/
theorem C3_oneof_merge_variant_semantics {π : Type} :
    (∀ (ident : String) (variants : List (String × Nat)) (defaults : String → π)
       (caps : String → π → π × Option DecodeError) (vid : String) (tag : Nat) (p : π),
      (variants.map Prod.snd).Nodup → (vid, tag) ∈ variants →
      oneofMergeField ident variants defaults caps tag (some ⟨vid, p⟩) =
        .ok (some ⟨vid, (caps vid p).1⟩, (caps vid p).2)) ∧
    (∀ (ident : String) (variants : List (String × Nat)) (defaults : String → π)
       (caps : String → π → π × Option DecodeError) (vid : String) (tag : Nat)
       (field : Option (OneofState π)),
      (variants.map Prod.snd).Nodup → (vid, tag) ∈ variants →
      (∀ st, field = some st → st.variant ≠ vid) →
      (caps vid (defaults vid)).2 = none →
      oneofMergeField ident variants defaults caps tag field =
        .ok (some ⟨vid, (caps vid (defaults vid)).1⟩, none)) := by
  constructor
  · intro ident variants defaults caps vid tag p hnd hmem
    unfold oneofMergeField
    rw [variants_find?_of_mem_nodup variants vid tag hnd hmem]
    simp
  · intro ident variants defaults caps vid tag field hnd hmem hdiff hsucc
    unfold oneofMergeField
    rw [variants_find?_of_mem_nodup variants vid tag hnd hmem]
    cases field with
    | none => simp [oneofMergeFresh_ok vid defaults caps none hsucc]
    | some st =>
      have hne : st.variant ≠ vid := hdiff st rfl
      simp [hne, oneofMergeFresh_ok vid defaults caps (some st) hsucc]

theorem C3_witness :
    oneofMergeField "Num" [("A", 1), ("B", 2)] (fun _ => ([] : List Nat))
        (fun _ p => (p ++ [7], none)) 2 (some ⟨"A", [1]⟩) =
      .ok (some ⟨"B", [7]⟩, none) ∧
    oneofMergeField "Num" [("A", 1), ("B", 2)] (fun _ => ([] : List Nat))
        (fun _ p => (p ++ [7], none)) 1 (some ⟨"A", [1]⟩) =
      .ok (some ⟨"A", [1, 7]⟩, none) := by
  constructor
  · exact C3_oneof_merge_variant_semantics.2 "Num" [("A", 1), ("B", 2)] _ _ "B" 2
      (some ⟨"A", [1]⟩) (by decide) (by decide)
      (by intro st hst; cases hst; decide) rfl
  · exact C3_oneof_merge_variant_semantics.1 "Num" [("A", 1), ("B", 2)] _ _ "A" 1
      [1] (by decide) (by decide)

/-- C4: the generated record merge is a tag-indexed dispatch: the case for
a descriptor matches any of its tags and invokes its merge capability,
enriching a failure with the shape name and field name before propagating
it, and a tag matched by no descriptor is delegated to the external
skip-unknown-field primitive, so it does not fail the merge when the skip
succeeds. -/
theorem C4_record_merge_dispatch :
    (∀ (ident : String) (declared : List (String × FieldAttrs)) (g : GeneratedMessage)
       (fid : String) (fd : FieldDesc) (tag : Nat)
       (caps : String → Except DecodeError Unit) (skip : Except DecodeError Unit),
      tryMessage ident declared = Outcome.ok g →
      (fid, fd) ∈ g.sortedFields → tag ∈ fd.tags →
      messageMergeField ident g.sortedFields caps skip tag =
        match caps fid with
        | .ok _ => .ok ()
        | .error e => .error (e.push ident fid)) ∧
    (∀ (ident : String) (declared : List (String × FieldAttrs)) (g : GeneratedMessage)
       (tag : Nat) (caps : String → Except DecodeError Unit) (skip : Except DecodeError Unit),
      tryMessage ident declared = Outcome.ok g →
      (∀ f ∈ g.sortedFields, tag ∉ f.2.tags) →
      messageMergeField ident g.sortedFields caps skip tag = skip ∧
        (skip = .ok () → messageMergeField ident g.sortedFields caps skip tag = .ok ())) := by
  constructor
  · intro ident declared g fid fd tag caps skip htm hmem ht
    obtain ⟨-, hnd, hsorted, -, -, -, -, -, -⟩ := tryMessage_ok_inv ident declared g htm
    have hperm : List.Perm (sortFields g.resolved) g.resolved := List.perm_insertionSort _ _
    have hnds : (g.sortedFields.flatMap (fun f => f.2.tags)).Nodup := by
      rw [hsorted]
      exact ((hperm.flatMap_right _).nodup_iff).mpr hnd
    unfold messageMergeField
    rw [find?_of_mem_tags_nodup g.sortedFields fid fd tag hnds hmem ht]
  · intro ident declared g tag caps skip _ hnotin
    have hnone : g.sortedFields.find? (fun f => f.2.tags.contains tag) = none :=
      List.find?_eq_none.mpr (fun f hf => by simpa using hnotin f hf)
    constructor
    · unfold messageMergeField
      rw [hnone]
    · intro hs
      unfold messageMergeField
      rw [hnone, hs]

def ptFields : List (String × FieldDesc) := [("x", ⟨[1]⟩), ("y", ⟨[2]⟩)]

def ptMsg : GeneratedMessage :=
  { resolved := ptFields
    sortedFields := ptFields
    encodeOrder := ["x", "y"]
    mergeDispatch := [("x", [1]), ("y", [2])]
    encodedLenOrder := ["x", "y"]
    clearOrder := ["x", "y"]
    defaultOrder := ["x", "y"]
    debugOrder := ["x", "y"] }

def ptCaps : String → Except DecodeError Unit :=
  fun fid => if fid = "x" then .error ⟨"boom", []⟩ else .ok ()

theorem C4_witness :
    messageMergeField "Pt" ptMsg.sortedFields ptCaps (.ok ()) 1 =
      .error ⟨"boom", [("Pt", "x")]⟩ ∧
    messageMergeField "Pt" ptMsg.sortedFields ptCaps (.ok ()) 9 = .ok () := by
  constructor
  · have h := C4_record_merge_dispatch.1 "Pt"
      [("x", FieldAttrs.explicitTags [1]), ("y", FieldAttrs.explicitTags [2])] ptMsg
      "x" ⟨[1]⟩ 1 ptCaps (.ok ()) (by decide) (by decide) (by decide)
    rw [h]
    rfl
  · exact (C4_record_merge_dispatch.2 "Pt"
      [("x", FieldAttrs.explicitTags [1]), ("y", FieldAttrs.explicitTags [2])] ptMsg
      9 ptCaps (.ok ()) (by decide) (by decide)).1

def swapMsg : GeneratedMessage :=
  { resolved := [("a", ⟨[2]⟩), ("b", ⟨[1]⟩)]
    sortedFields := [("b", ⟨[1]⟩), ("a", ⟨[2]⟩)]
    encodeOrder := ["b", "a"]
    mergeDispatch := [("b", [1]), ("a", [2])]
    encodedLenOrder := ["b", "a"]
    clearOrder := ["b", "a"]
    defaultOrder := ["b", "a"]
    debugOrder := ["a", "b"] }

/-- C5 counterexample: compiling a record whose declaration order differs
from its tag order yields a default constructor in tag-sorted order
`["b", "a"]`, not the declaration order `["a", "b"]` — line 138 of the
source iterates the sorted `fields`, not `unsorted_fields`. -/
theorem C5_counterexample :
    tryMessage "M" [("a", FieldAttrs.explicitTags [2]), ("b", FieldAttrs.explicitTags [1])] =
      .ok swapMsg ∧
    swapMsg.defaultOrder ≠ swapMsg.resolved.map Prod.fst := by
  exact ⟨by decide, by decide⟩

/-- C5 (amended): the generated default constructor is produced from the
tag-sorted field list — the same list that feeds encode/merge/length — not
from the declaration-order list. -/
theorem C5_default_from_sorted (ident : String) (declared : List (String × FieldAttrs))
    (g : GeneratedMessage) (h : tryMessage ident declared = .ok g) :
    g.defaultOrder = g.sortedFields.map Prod.fst ∧
    g.sortedFields = sortFields g.resolved := by
  obtain ⟨-, -, h3, -, -, -, -, h8, -⟩ := tryMessage_ok_inv ident declared g h
  exact ⟨h8, h3⟩

def c5Msg : GeneratedMessage :=
  { resolved := [("u", ⟨[5]⟩), ("v", ⟨[3]⟩)]
    sortedFields := [("v", ⟨[3]⟩), ("u", ⟨[5]⟩)]
    encodeOrder := ["v", "u"]
    mergeDispatch := [("v", [3]), ("u", [5])]
    encodedLenOrder := ["v", "u"]
    clearOrder := ["v", "u"]
    defaultOrder := ["v", "u"]
    debugOrder := ["u", "v"] }

theorem C5_witness :
    c5Msg.defaultOrder = c5Msg.sortedFields.map Prod.fst :=
  (C5_default_from_sorted "N"
    [("u", FieldAttrs.explicitTags [5]), ("v", FieldAttrs.explicitTags [3])]
    c5Msg (by decide)).1

/-- C6: two orderings are derived from the same resolved field list — the
tag-sorted list (a stable sort, ascending on each descriptor's minimum
tag: a permutation of the resolved list, sorted by `tagLE`, preserving the
relative order of fields with equal minimum tag) generates encode, merge
and encoded-length, while the debug representation is generated from the
original declaration-order list. -/
theorem C6_two_orderings (ident : String) (declared : List (String × FieldAttrs))
    (g : GeneratedMessage) (h : tryMessage ident declared = .ok g) :
    List.Perm g.sortedFields g.resolved ∧
    g.sortedFields.Sorted tagLE ∧
    (∀ k, g.sortedFields.filter (fun x => x.2.minTag == k) =
      g.resolved.filter (fun x => x.2.minTag == k)) ∧
    g.encodeOrder = g.sortedFields.map Prod.fst ∧
    g.mergeDispatch = g.sortedFields.map (fun f => (f.1, f.2.tags)) ∧
    g.encodedLenOrder = g.sortedFields.map Prod.fst ∧
    g.debugOrder = g.resolved.map Prod.fst := by
  obtain ⟨-, -, h3, h4, h5, h6, -, -, h9⟩ := tryMessage_ok_inv ident declared g h
  refine ⟨?_, ?_, ?_, h4, h5, h6, h9⟩
  · rw [h3]; exact List.perm_insertionSort _ _
  · rw [h3]; exact List.sorted_insertionSort _ _
  · intro k; rw [h3]; exact filter_sortFields_minTag k _

def c6Msg : GeneratedMessage :=
  { resolved := [("p", ⟨[7]⟩), ("q", ⟨[2]⟩), ("r", ⟨[3]⟩)]
    sortedFields := [("q", ⟨[2]⟩), ("r", ⟨[3]⟩), ("p", ⟨[7]⟩)]
    encodeOrder := ["q", "r", "p"]
    mergeDispatch := [("q", [2]), ("r", [3]), ("p", [7])]
    encodedLenOrder := ["q", "r", "p"]
    clearOrder := ["q", "r", "p"]
    defaultOrder := ["q", "r", "p"]
    debugOrder := ["p", "q", "r"] }

theorem C6_witness :
    List.Perm c6Msg.sortedFields c6Msg.resolved ∧
    c6Msg.debugOrder = c6Msg.resolved.map Prod.fst := by
  have h := C6_two_orderings "P"
    [("p", FieldAttrs.explicitTags [7]), ("q", FieldAttrs.explicitTags [2]),
     ("r", FieldAttrs.implicit)] c6Msg (by decide)
  exact ⟨h.1, h.2.2.2.2.2.2⟩

/-- C7: the generated conversion from the raw integer is a direct
unvalidated reinterpretation and the conversion back is its total inverse:
`into (from x) = x` for every integer, and `from 5` succeeds yielding a
value that `is_valid` rejects for the constants RED=0, GREEN=1, BLUE=2. -/
theorem C7_enum_conversion_inverse :
    (∀ x : Int, enumIntoRaw (enumFromRaw x) = x) ∧
    enumIsValid [0, 1, 2] (enumFromRaw 5) = false :=
  ⟨fun _ => rfl, rfl⟩

/-- C8: for every compiled enumeration with a non-empty constant list, the
generated `is_valid` holds exactly on the declared constants and the
generated `default` is the first declared constant. -/
theorem C8_enum_is_valid_default (constants generated : List Int)
    (h : tryEnumeration constants = .ok generated) :
    (∀ v : Int, enumIsValid generated (enumFromRaw v) = true ↔ v ∈ constants) ∧
    (∀ c rest, constants = c :: rest → enumDefault generated = ⟨c⟩) := by
  unfold tryEnumeration at h
  split at h
  · exact Outcome.noConfusion h
  · injection h with hg
    subst hg
    constructor
    · intro v
      simp [enumIsValid, enumFromRaw]
    · intro c rest hc
      subst hc
      rfl

theorem C8_witness :
    (enumIsValid [0, 1, 2] (enumFromRaw 1) = true ↔ (1 : Int) ∈ [0, 1, 2]) ∧
    enumDefault [0, 1, 2] = ⟨0⟩ := by
  have h := C8_enum_is_valid_default [0, 1, 2] [0, 1, 2] rfl
  exact ⟨h.1 1, h.2 0 [1, 2] rfl⟩

/-- C9: in the generated sum-type merge the branch for a tag belonging to
no variant is an unrecoverable abort (`unreachable!`) carrying the shape
identifier and the unexpected tag, not an error value; when the dispatched
tag is one of the variants' declared tags this branch is never taken — the
merge completes with an ordinary result. -/
theorem C9_oneof_unmatched_tag_unreachable {π : Type} :
    (∀ (ident : String) (variants : List (String × Nat)) (defaults : String → π)
       (caps : String → π → π × Option DecodeError) (tag : Nat)
       (field : Option (OneofState π)),
      (∀ v ∈ variants, v.2 ≠ tag) →
      oneofMergeField ident variants defaults caps tag field =
        .fatal ("invalid " ++ ident ++ " tag: " ++ toString tag)) ∧
    (∀ (ident : String) (variants : List (String × Nat)) (defaults : String → π)
       (caps : String → π → π × Option DecodeError) (tag : Nat)
       (field : Option (OneofState π)),
      tag ∈ variants.map Prod.snd →
      ∃ r, oneofMergeField ident variants defaults caps tag field = .ok r) := by
  constructor
  · intro ident variants defaults caps tag field hno
    have hnone : variants.find? (fun v => v.2 == tag) = none :=
      List.find?_eq_none.mpr (fun v hv => by simpa using hno v hv)
    unfold oneofMergeField
    rw [hnone]
  · intro ident variants defaults caps tag field hmem
    obtain ⟨v, hv, hveq⟩ := List.mem_map.mp hmem
    have hsome : (variants.find? (fun v => v.2 == tag)).isSome :=
      List.find?_isSome.mpr ⟨v, hv, by simp [hveq]⟩
    obtain ⟨w, hw⟩ := Option.isSome_iff_exists.mp hsome
    obtain ⟨wid, wtag⟩ := w
    unfold oneofMergeField
    rw [hw]
    cases field with
    | none => exact ⟨_, rfl⟩
    | some st =>
      by_cases hvar : st.variant = wid
      · refine ⟨(some ⟨wid, (caps wid st.payload).1⟩, (caps wid st.payload).2), ?_⟩
        simp [hvar]
      · refine ⟨oneofMergeFresh wid defaults caps (some st), ?_⟩
        simp [hvar]

theorem C9_witness :
    oneofMergeField "Dir" [("A", 1), ("B", 2)] (fun _ => (0 : Nat))
        (fun _ p => (p, none)) 9 none =
      .fatal ("invalid " ++ "Dir" ++ " tag: " ++ toString (9 : Nat)) :=
  C9_oneof_unmatched_tag_unreachable.1 "Dir" [("A", 1), ("B", 2)] _ _ 9 none (by decide)

/-- C10: when the dispatched tag's variant is not the currently active one
and merging into the freshly constructed default payload fails, the slot
is left unchanged — the previously active variant, or the empty state, is
retained, and only the error is reported. -/
theorem C10_failed_fresh_merge_keeps_slot {π : Type}
    (ident : String) (variants : List (String × Nat)) (defaults : String → π)
    (caps : String → π → π × Option DecodeError) (vid : String) (tag : Nat)
    (field : Option (OneofState π)) (e : DecodeError)
    (hnd : (variants.map Prod.snd).Nodup) (hmem : (vid, tag) ∈ variants)
    (hdiff : ∀ st, field = some st → st.variant ≠ vid)
    (hfail : (caps vid (defaults vid)).2 = some e) :
    oneofMergeField ident variants defaults caps tag field = .ok (field, some e) := by
  unfold oneofMergeField
  rw [variants_find?_of_mem_nodup variants vid tag hnd hmem]
  cases field with
  | none => simp [oneofMergeFresh_err vid defaults caps none e hfail]
  | some st =>
    have hne : st.variant ≠ vid := hdiff st rfl
    simp [hne, oneofMergeFresh_err vid defaults caps (some st) e hfail]

theorem C10_witness :
    oneofMergeField "Sel" [("A", 1), ("B", 2)] (fun _ => (0 : Nat))
        (fun vid p => if vid = "B" then (p, some ⟨"bad", []⟩) else (p, none)) 2
        (some ⟨"A", 5⟩) =
      .ok (some ⟨"A", 5⟩, some ⟨"bad", []⟩) :=
  C10_failed_fresh_merge_keeps_slot "Sel" [("A", 1), ("B", 2)] _ _ "B" 2
    (some ⟨"A", 5⟩) ⟨"bad", []⟩ (by decide) (by decide)
    (by intro st hst; cases hst; decide) (by decide)
